import Mathlib

/-! Verification development for the upload scheduling subsystem of the
youtube-upload repository.  The definitions below are shallow embeddings of
`src/youtube_shorts_uploader/core/scheduler.py` (class `UploadScheduler`) and
`src/youtube_shorts_uploader/core/youtube_api.py` (`YouTubeAPI._resumable_upload`).
Times are modelled as integer minute counts, the schedule file as an inductive
JSON value, and the background scheduler loop as a single-tick step function.
-/

namespace YSU

/-- One scheduled upload record, mirroring the `upload_data` dict built in
`UploadScheduler.import_folder`.  The `video_id` and `error` fields model JSON
keys that are absent until the scheduler loop first sets them. -/
structure ScheduledUpload where
  id : String
  file_path : String
  account_id : String
  scheduled_time : Int
  title : String
  description : String
  tags : List String
  privacy_status : String
  uploaded : Bool
  cancelled : Bool
  randomized : Bool
  video_id : Option String
  error : Option String
deriving Repr, DecidableEq

/-- JSON values, used to model the on-disk `schedule.json` document. -/
inductive Json where
  | str (s : String)
  | num (n : Int)
  | bool (b : Bool)
  | null
  | arr (items : List Json)
  | obj (fields : List (String × Json))
deriving Repr

/-- Dictionary lookup on a JSON object's field list (Python `dict.get`). -/
def jsonGet : List (String × Json) → String → Option Json
  | [], _ => none
  | (k, v) :: rest, key => if k = key then some v else jsonGet rest key

/-- Encoding of one record as written by `json.dump` in `_save_schedule`. -/
def encodeEntry (v : ScheduledUpload) : Json :=
  Json.obj ([("id", Json.str v.id),
    ("file_path", Json.str v.file_path),
    ("account_id", Json.str v.account_id),
    ("scheduled_time", Json.num v.scheduled_time),
    ("title", Json.str v.title),
    ("description", Json.str v.description),
    ("tags", Json.arr (v.tags.map Json.str)),
    ("privacy_status", Json.str v.privacy_status),
    ("uploaded", Json.bool v.uploaded),
    ("cancelled", Json.bool v.cancelled),
    ("randomized", Json.bool v.randomized)]
    ++ (match v.video_id with | some x => [("video_id", Json.str x)] | none => [])
    ++ (match v.error with | some x => [("error", Json.str x)] | none => []))

def asStr : Option Json → Option String
  | some (Json.str s) => some s
  | _ => none

def asInt : Option Json → Option Int
  | some (Json.num n) => some n
  | _ => none

def asBool : Option Json → Option Bool
  | some (Json.bool b) => some b
  | _ => none

/-- Element-wise decoding of a JSON string array. -/
def decodeStrings : List Json → Option (List String)
  | [] => some []
  | j :: js =>
    match j with
    | Json.str s => (decodeStrings js).map (fun r => s :: r)
    | _ => none

def asStrList : Option Json → Option (List String)
  | some (Json.arr xs) => decodeStrings xs
  | _ => none

/-- Decoding of one record as read back by `_load_schedule`. -/
def decodeEntry : Json → Option ScheduledUpload
  | Json.obj fields => do
    let id ← asStr (jsonGet fields "id")
    let fp ← asStr (jsonGet fields "file_path")
    let acc ← asStr (jsonGet fields "account_id")
    let sched ← asInt (jsonGet fields "scheduled_time")
    let title ← asStr (jsonGet fields "title")
    let descr ← asStr (jsonGet fields "description")
    let tags ← asStrList (jsonGet fields "tags")
    let priv ← asStr (jsonGet fields "privacy_status")
    let upl ← asBool (jsonGet fields "uploaded")
    let canc ← asBool (jsonGet fields "cancelled")
    let rand ← asBool (jsonGet fields "randomized")
    pure { id := id
           file_path := fp
           account_id := acc
           scheduled_time := sched
           title := title
           description := descr
           tags := tags
           privacy_status := priv
           uploaded := upl
           cancelled := canc
           randomized := rand
           video_id := asStr (jsonGet fields "video_id")
           error := asStr (jsonGet fields "error") }
  | _ => none

/-- The document written by `UploadScheduler._save_schedule`: the full list of
records under the single key `videos`. -/
def save_schedule (videos : List ScheduledUpload) : Json :=
  Json.obj [("videos", Json.arr (videos.map encodeEntry))]

/-- Element-wise decoding of the stored record array. -/
def decodeAll : List Json → Option (List ScheduledUpload)
  | [] => some []
  | j :: js => do
    let v ← decodeEntry j
    let vs ← decodeAll js
    pure (v :: vs)

/-- The list read by `UploadScheduler._load_schedule`: an absent file or a
malformed document yields the empty list. -/
def load_schedule (file : Option Json) : List ScheduledUpload :=
  match file with
  | none => []
  | some (Json.obj fields) =>
    match jsonGet fields "videos" with
    | some (Json.arr items) => (decodeAll items).getD []
    | _ => []
  | some _ => []

/-- Scheduler state: the in-memory record list `scheduled_videos`, the priority
queue `upload_queue` of (priority, snapshot) pairs, and a counter of how many
times `_save_schedule` has rewritten the file. -/
structure SchedulerState where
  scheduled_videos : List ScheduledUpload
  upload_queue : List (Int × ScheduledUpload)
  fileWrites : Nat
deriving Repr, DecidableEq

def initState : SchedulerState := { scheduled_videos := [], upload_queue := [], fileWrites := 0 }

/-- Startup state built by `_load_schedule`: every pending (non-uploaded,
non-cancelled) entry is re-enqueued keyed by its scheduled time. -/
def load_state (file : Option Json) : SchedulerState :=
  let vids := load_schedule file
  { scheduled_videos := vids
    upload_queue := (vids.filter (fun v => !v.uploaded && !v.cancelled)).map
      (fun v => (v.scheduled_time, v))
    fileWrites := 0 }

/-- Helper of `cancel_scheduled_video`: set `cancelled` on the first entry whose
`id` matches; `none` when no entry matches. -/
def cancelFirst : List ScheduledUpload → String → Option (List ScheduledUpload)
  | [], _ => none
  | v :: vs, vid =>
    if v.id = vid then some ({ v with cancelled := true } :: vs)
    else (cancelFirst vs vid).map (fun rest => v :: rest)

/-- Translation of `UploadScheduler.cancel_scheduled_video`: marks the first
matching entry cancelled (whatever its current state) and saves; returns
`false` without saving when no entry matches. -/
def cancel_scheduled_video (st : SchedulerState) (videoId : String) : SchedulerState × Bool :=
  match cancelFirst st.scheduled_videos videoId with
  | some vs => ({ st with scheduled_videos := vs, fileWrites := st.fileWrites + 1 }, true)
  | none => (st, false)

/-- Helper of `update_video_metadata`: partial update of the first entry whose
`id` matches (a `none` argument leaves that field unchanged). -/
def updateFirst : List ScheduledUpload → String → Option String → Option String →
    Option (List String) → Option (List ScheduledUpload)
  | [], _, _, _, _ => none
  | v :: vs, vid, t, d, tg =>
    if v.id = vid then
      some ({ v with
              title := t.getD v.title
              description := d.getD v.description
              tags := tg.getD v.tags } :: vs)
    else (updateFirst vs vid t d tg).map (fun rest => v :: rest)

/-- Translation of `UploadScheduler.update_video_metadata`. -/
def update_video_metadata (st : SchedulerState) (videoId : String)
    (title description : Option String) (tags : Option (List String)) : SchedulerState × Bool :=
  match updateFirst st.scheduled_videos videoId title description tags with
  | some vs => ({ st with scheduled_videos := vs, fileWrites := st.fileWrites + 1 }, true)
  | none => (st, false)

/-- Translation of `UploadScheduler.clear_all_scheduled_videos`: keep only
uploaded-or-cancelled history, empty the queue, save, return the pending count. -/
def clear_all_scheduled_videos (st : SchedulerState) : SchedulerState × Nat :=
  (({ scheduled_videos := st.scheduled_videos.filter (fun v => v.uploaded || v.cancelled)
      upload_queue := []
      fileWrites := st.fileWrites + 1 } : SchedulerState),
   (st.scheduled_videos.filter (fun v => !v.uploaded && !v.cancelled)).length)

/-- Result of `UploadScheduler._process_upload` for one attempt. -/
inductive ExecResult where
  | success (ytVideoId : String)
  | failure (msg : String)
deriving Repr, DecidableEq

/-- Pop of `queue.PriorityQueue.get`: remove the first element of minimal
priority, returning it and the remaining elements. -/
def popMin : List (Int × ScheduledUpload) →
    Option ((Int × ScheduledUpload) × List (Int × ScheduledUpload))
  | [] => none
  | x :: xs =>
    match popMin xs with
    | none => some (x, [])
    | some (m, rest) => if x.1 ≤ m.1 then some (x, xs) else some (m, x :: rest)

/-- First stored entry with the given id, as scanned by `_scheduler_loop`. -/
def findFirst : List ScheduledUpload → String → Option ScheduledUpload
  | [], _ => none
  | v :: vs, vid => if v.id = vid then some v else findFirst vs vid

/-- Status-field update applied at `scheduled_videos[video_index]` by the loop. -/
def applyOutcome (v : ScheduledUpload) : ExecResult → ScheduledUpload
  | ExecResult.success ytid => { v with uploaded := true, video_id := some ytid }
  | ExecResult.failure msg => { v with error := some msg }

/-- Record the execution outcome on the first entry with the given id. -/
def setOutcome : List ScheduledUpload → String → ExecResult → List ScheduledUpload
  | [], _, _ => []
  | v :: vs, vid, res =>
    if v.id = vid then applyOutcome v res :: vs
    else v :: setOutcome vs vid res

/-- One poll tick of `UploadScheduler._scheduler_loop`: peek the earliest
queued item; if due, pop it, re-read the stored record for its id, skip it if
that record is cancelled, otherwise execute it and record the outcome (saving
the schedule only when the record was found).  Returns the new state and the
snapshot that was executed, if any. -/
def scheduler_tick (st : SchedulerState) (now : Int)
    (exec : ScheduledUpload → ExecResult) : SchedulerState × Option ScheduledUpload :=
  match popMin st.upload_queue with
  | none => (st, none)
  | some ((p, v), rest) =>
    if p ≤ now then
      match findFirst st.scheduled_videos v.id with
      | some w =>
        if w.cancelled then ({ st with upload_queue := rest }, none)
        else
          ({ st with
             scheduled_videos := setOutcome st.scheduled_videos v.id (exec v)
             upload_queue := rest
             fileWrites := st.fileWrites + 1 }, some v)
      | none => ({ st with upload_queue := rest }, some v)
    else (st, none)

/-- Metadata produced by `VideoProcessor.process_video` for one file. -/
structure VideoMetadata where
  title : String
  description : String
  hashtags : List String
deriving Repr, DecidableEq

/-- One candidate file of the imported folder; `meta = none` models
`process_video` raising, in which case `import_folder` skips the file. -/
structure FileEntry where
  path : String
  meta : Option VideoMetadata
deriving Repr, DecidableEq

/-- Start-time selection of `import_folder`: an unspecified start defaults to
now + 5 minutes, and a start in the past is clamped to now + 5 minutes. -/
def effectiveStartTime (startTime : Option Int) (now : Int) : Int :=
  let s := match startTime with
    | none => now + 5
    | some t => t
  if s < now then now + 5 else s

/-- Per-file loop of `import_folder`.  `ids` supplies the successive
`uuid.uuid4()` values and `rands` the successive `random.randint(60, 70)`
draws (consumed only for successfully processed files, matching the source
ordering).  Times are in minutes, so a fixed interval advances by
`intervalHours * 60` and a randomized interval by the drawn minute count. -/
def importLoop : List FileEntry → List String → List Nat → Int → Int → Bool → String →
    String → List ScheduledUpload
  | [], _, _, _, _, _, _, _ => []
  | f :: fs, ids, rands, current, intervalMinutes, randomizedHourly, accountId, privacy =>
    match f.meta with
    | none => importLoop fs ids rands current intervalMinutes randomizedHourly accountId privacy
    | some m =>
      let entry : ScheduledUpload :=
        { id := ids.headD ""
          file_path := f.path
          account_id := accountId
          scheduled_time := current
          title := m.title
          description := m.description
          tags := m.hashtags
          privacy_status := privacy
          uploaded := false
          cancelled := false
          randomized := randomizedHourly
          video_id := none
          error := none }
      let next : Int :=
        if randomizedHourly then current + (rands.headD 60 : Nat)
        else current + intervalMinutes
      entry :: importLoop fs ids.tail (if randomizedHourly then rands.tail else rands)
        next intervalMinutes randomizedHourly accountId privacy

/-- Entries created by one `import_folder` call. -/
def impCreated (files : List FileEntry) (ids : List String) (rands : List Nat)
    (accountId : String) (intervalHours : Int) (startTime : Option Int)
    (randomizedHourly : Bool) (privacy : String) (now : Int) : List ScheduledUpload :=
  importLoop files ids rands (effectiveStartTime startTime now) (intervalHours * 60)
    randomizedHourly accountId privacy

/-- Translation of `UploadScheduler.import_folder`: no files means count 0 and
no save; otherwise every created entry is appended to the list and pushed to
the queue keyed by its scheduled time, and the schedule is saved once. -/
def import_folder (st : SchedulerState) (files : List FileEntry) (ids : List String)
    (rands : List Nat) (accountId : String) (intervalHours : Int) (startTime : Option Int)
    (randomizedHourly : Bool) (privacy : String) (now : Int) : SchedulerState × Nat :=
  if files.isEmpty then (st, 0)
  else
    let created := impCreated files ids rands accountId intervalHours startTime
      randomizedHourly privacy now
    ({ st with
        scheduled_videos := st.scheduled_videos ++ created
        upload_queue := st.upload_queue ++ created.map (fun e => (e.scheduled_time, e))
        fileWrites := st.fileWrites + 1 }, created.length)

/-- One `next_chunk` outcome inside `YouTubeAPI._resumable_upload`. -/
inductive ChunkOutcome where
  | progress
  | done (ytVideoId : String)
  | httpError (status : Nat)
  | otherError (msg : String)
deriving Repr, DecidableEq

/-- Observable result of one `_resumable_upload` run: the returned value, the
sequence of back-off sleeps performed, and the chunk outcomes not consumed. -/
structure UploadRun where
  result : Option String
  sleeps : List Nat
  remaining : List ChunkOutcome
deriving Repr, DecidableEq

/-- Statuses treated as transient server errors by `_resumable_upload`. -/
def isTransient (s : Nat) : Bool := s = 500 || s = 502 || s = 503 || s = 504

/-- The retry loop of `_resumable_upload`.  State: `response` (the value of the
Python `response` variable), `err` (whether the Python `error` variable is
set), `retry` (current retry count) and `maxRetries`.  The Python epilogue
returns `None` whenever `error` is set, even when a response was eventually
obtained. -/
def uploadLoop : List ChunkOutcome → Option String → Bool → Nat → Nat → UploadRun
  | chunks, some r, err, _, _ => { result := if err then none else some r, sleeps := [], remaining := chunks }
  | chunks, none, err, retry, maxRetries =>
    if maxRetries ≤ retry then { result := none, sleeps := [], remaining := chunks }
    else
      match chunks with
      | [] => { result := none, sleeps := [], remaining := [] }
      | c :: rest =>
        match c with
        | ChunkOutcome.progress => uploadLoop rest none err retry maxRetries
        | ChunkOutcome.done vid => uploadLoop rest (some vid) err retry maxRetries
        | ChunkOutcome.httpError s =>
          if isTransient s then
            let run := uploadLoop rest none true (retry + 1) maxRetries
            { result := run.result
              sleeps := 2 ^ (retry + 1) :: run.sleeps
              remaining := run.remaining }
          else { result := none, sleeps := [], remaining := rest }
        | ChunkOutcome.otherError _ =>
          let run := uploadLoop rest none true (retry + 1) maxRetries
          { result := run.result
            sleeps := 2 ^ (retry + 1) :: run.sleeps
            remaining := run.remaining }

/-- Translation of `YouTubeAPI._resumable_upload` (called with the default
`max_retries=10` by `upload_video`). -/
def resumable_upload (chunks : List ChunkOutcome) (maxRetries : Nat) : UploadRun :=
  uploadLoop chunks none false 0 maxRetries

/-! Helper lemmas about the first-match list operations. -/

lemma cancelFirst_no_match (vs : List ScheduledUpload) (vid : String)
    (h : ∀ v ∈ vs, v.id ≠ vid) : cancelFirst vs vid = none := by
  induction vs with
  | nil => rfl
  | cons v vs ih =>
    have hv : ¬ v.id = vid := h v (List.mem_cons_self v vs)
    simp [cancelFirst, hv, ih (fun u hu => h u (List.mem_cons_of_mem v hu))]

lemma cancelFirst_app (pre : List ScheduledUpload) (w : ScheduledUpload)
    (post : List ScheduledUpload) (vid : String) (hw : w.id = vid)
    (hpre : ∀ u ∈ pre, u.id ≠ vid) :
    cancelFirst (pre ++ w :: post) vid = some (pre ++ { w with cancelled := true } :: post) := by
  induction pre with
  | nil => simp [cancelFirst, hw]
  | cons u us ih =>
    have hu : ¬ u.id = vid := hpre u (List.mem_cons_self u us)
    simp [cancelFirst, hu, ih (fun x hx => hpre x (List.mem_cons_of_mem u hx))]

lemma cancelFirst_some (vs vs' : List ScheduledUpload) (vid : String)
    (h : cancelFirst vs vid = some vs') :
    ∃ pre w post, vs = pre ++ w :: post ∧ w.id = vid ∧ (∀ u ∈ pre, u.id ≠ vid) ∧
      vs' = pre ++ { w with cancelled := true } :: post := by
  induction vs generalizing vs' with
  | nil => simp [cancelFirst] at h
  | cons v vs ih =>
    by_cases hv : v.id = vid
    · refine ⟨[], v, vs, by simp, hv, by simp, ?_⟩
      simp [cancelFirst, hv] at h
      simp [← h, hv]
    · simp only [cancelFirst, if_neg hv] at h
      rcases Option.map_eq_some'.mp h with ⟨rest, hrest, hvs'⟩
      rcases ih rest hrest with ⟨pre, w, post, hsp, hw, hpre, hrest'⟩
      refine ⟨v :: pre, w, post, by simp [hsp], hw, ?_, by simp [← hvs', hrest']⟩
      intro u hu
      rcases List.mem_cons.mp hu with h1 | h2
      · simpa [h1] using hv
      · exact hpre u h2

lemma updateFirst_no_match (vs : List ScheduledUpload) (vid : String)
    (t d : Option String) (tg : Option (List String))
    (h : ∀ v ∈ vs, v.id ≠ vid) : updateFirst vs vid t d tg = none := by
  induction vs with
  | nil => rfl
  | cons v vs ih =>
    have hv : ¬ v.id = vid := h v (List.mem_cons_self v vs)
    simp [updateFirst, hv, ih (fun u hu => h u (List.mem_cons_of_mem v hu))]

lemma updateFirst_app (pre : List ScheduledUpload) (w : ScheduledUpload)
    (post : List ScheduledUpload) (vid : String) (t d : Option String)
    (tg : Option (List String)) (hw : w.id = vid) (hpre : ∀ u ∈ pre, u.id ≠ vid) :
    updateFirst (pre ++ w :: post) vid t d tg =
      some (pre ++ { w with
                     title := t.getD w.title
                     description := d.getD w.description
                     tags := tg.getD w.tags } :: post) := by
  induction pre with
  | nil => simp [updateFirst, hw]
  | cons u us ih =>
    have hu : ¬ u.id = vid := hpre u (List.mem_cons_self u us)
    simp [updateFirst, hu, ih (fun x hx => hpre x (List.mem_cons_of_mem u hx))]

lemma updateFirst_some (vs vs' : List ScheduledUpload) (vid : String)
    (t d : Option String) (tg : Option (List String))
    (h : updateFirst vs vid t d tg = some vs') :
    ∃ pre w post, vs = pre ++ w :: post ∧ w.id = vid ∧ (∀ u ∈ pre, u.id ≠ vid) ∧
      vs' = pre ++ { w with
                     title := t.getD w.title
                     description := d.getD w.description
                     tags := tg.getD w.tags } :: post := by
  induction vs generalizing vs' with
  | nil => simp [updateFirst] at h
  | cons v vs ih =>
    by_cases hv : v.id = vid
    · refine ⟨[], v, vs, by simp, hv, by simp, ?_⟩
      simp [updateFirst, hv] at h
      simp [← h, hv]
    · simp only [updateFirst, if_neg hv] at h
      rcases Option.map_eq_some'.mp h with ⟨rest, hrest, hvs'⟩
      rcases ih rest hrest with ⟨pre, w, post, hsp, hw, hpre, hrest'⟩
      refine ⟨v :: pre, w, post, by simp [hsp], hw, ?_, by simp [← hvs', hrest']⟩
      intro u hu
      rcases List.mem_cons.mp hu with h1 | h2
      · simpa [h1] using hv
      · exact hpre u h2

lemma applyOutcome_id (v : ScheduledUpload) (r : ExecResult) :
    (applyOutcome v r).id = v.id := by cases r <;> rfl

lemma setOutcome_no_match (vs : List ScheduledUpload) (vid : String) (res : ExecResult)
    (h : ∀ v ∈ vs, v.id ≠ vid) : setOutcome vs vid res = vs := by
  induction vs with
  | nil => rfl
  | cons v vs ih =>
    have hv : ¬ v.id = vid := h v (List.mem_cons_self v vs)
    simp [setOutcome, hv, ih (fun u hu => h u (List.mem_cons_of_mem v hu))]

lemma setOutcome_app (pre : List ScheduledUpload) (w : ScheduledUpload)
    (post : List ScheduledUpload) (vid : String) (res : ExecResult)
    (hw : w.id = vid) (hpre : ∀ u ∈ pre, u.id ≠ vid) :
    setOutcome (pre ++ w :: post) vid res = pre ++ applyOutcome w res :: post := by
  induction pre with
  | nil => simp [setOutcome, hw]
  | cons u us ih =>
    have hu : ¬ u.id = vid := hpre u (List.mem_cons_self u us)
    simp [setOutcome, hu, ih (fun x hx => hpre x (List.mem_cons_of_mem u hx))]

lemma setOutcome_map_id (vs : List ScheduledUpload) (vid : String) (res : ExecResult) :
    (setOutcome vs vid res).map (fun v => v.id) = vs.map (fun v => v.id) := by
  induction vs with
  | nil => rfl
  | cons v vs ih =>
    by_cases hv : v.id = vid
    · simp [setOutcome, hv, applyOutcome_id]
    · simp [setOutcome, hv, ih]

lemma findFirst_none (vs : List ScheduledUpload) (vid : String)
    (h : findFirst vs vid = none) : ∀ v ∈ vs, v.id ≠ vid := by
  induction vs with
  | nil => simp
  | cons v vs ih =>
    by_cases hv : v.id = vid
    · simp [findFirst, hv] at h
    · intro u hu
      rcases List.mem_cons.mp hu with h1 | h2
      · simpa [h1] using hv
      · exact ih (by simpa [findFirst, hv] using h) u h2

lemma findFirst_decomp (vs : List ScheduledUpload) (vid : String) (w : ScheduledUpload)
    (h : findFirst vs vid = some w) :
    ∃ pre post, vs = pre ++ w :: post ∧ (∀ u ∈ pre, u.id ≠ vid) ∧ w.id = vid := by
  induction vs with
  | nil => simp [findFirst] at h
  | cons v vs ih =>
    by_cases hv : v.id = vid
    · have hw : w = v := by simpa [findFirst, hv] using h.symm
      exact ⟨[], vs, by simp [hw], by simp, by simp [hw, hv]⟩
    · rcases ih (by simpa [findFirst, hv] using h) with ⟨pre, post, hsp, hpre, hw⟩
      refine ⟨v :: pre, post, by simp [hsp], ?_, hw⟩
      intro u hu
      rcases List.mem_cons.mp hu with h1 | h2
      · simpa [h1] using hv
      · exact hpre u h2

lemma popMin_eq_none (q : List (Int × ScheduledUpload)) (h : popMin q = none) : q = [] := by
  cases q with
  | nil => rfl
  | cons x xs =>
    simp only [popMin] at h
    cases hx : popMin xs with
    | none => simp [hx] at h
    | some m =>
      rcases m with ⟨m, rest⟩
      rw [hx] at h
      by_cases hle : x.1 ≤ m.1 <;> simp [hle] at h

lemma popMin_perm (q : List (Int × ScheduledUpload)) (x : Int × ScheduledUpload)
    (rest : List (Int × ScheduledUpload)) (h : popMin q = some (x, rest)) :
    (x :: rest).Perm q := by
  induction q generalizing x rest with
  | nil => simp [popMin] at h
  | cons a as ih =>
    simp only [popMin] at h
    cases hx : popMin as with
    | none =>
      rw [hx] at h
      have has : as = [] := popMin_eq_none as hx
      simp only [Option.some.injEq, Prod.mk.injEq] at h
      rw [← h.1, ← h.2, has]
    | some m =>
      rcases m with ⟨m, mrest⟩
      rw [hx] at h
      by_cases hle : a.1 ≤ m.1
      · simp only [if_pos hle, Option.some.injEq, Prod.mk.injEq] at h
        rw [← h.1, ← h.2]
      · simp only [if_neg hle, Option.some.injEq, Prod.mk.injEq] at h
        rw [← h.1, ← h.2]
        exact List.Perm.trans (List.Perm.swap a m mrest) (List.Perm.cons a (ih m mrest hx))

/-! Operation-level step relation: each constructor is one public scheduler
call or one poll tick of the background loop. -/

inductive SchedOp where
  | imp (files : List FileEntry) (ids : List String) (rands : List Nat)
        (accountId : String) (intervalHours : Int) (startTime : Option Int)
        (randomizedHourly : Bool) (privacy : String) (now : Int)
  | cancel (videoId : String)
  | update (videoId : String) (title description : Option String) (tags : Option (List String))
  | clearAll
  | tick (now : Int) (exec : ScheduledUpload → ExecResult)

def stepOp (st : SchedulerState) : SchedOp → SchedulerState
  | SchedOp.imp files ids rands a ih s r p now =>
    (import_folder st files ids rands a ih s r p now).1
  | SchedOp.cancel vid => (cancel_scheduled_video st vid).1
  | SchedOp.update vid t d tg => (update_video_metadata st vid t d tg).1
  | SchedOp.clearAll => (clear_all_scheduled_videos st).1
  | SchedOp.tick now exec => (scheduler_tick st now exec).1

/-- Side conditions under which an operation respects the spec's state
invariant: imported ids are globally fresh (as `uuid.uuid4` provides), and
cancellation/metadata-update are not applied to an already-uploaded entry. -/
def okOp (st : SchedulerState) : SchedOp → Prop
  | SchedOp.imp files ids rands a ih s r p now =>
    ((st.scheduled_videos.map (fun v => v.id)) ++
      ((impCreated files ids rands a ih s r p now).map (fun v => v.id))).Nodup
  | SchedOp.cancel vid => ∀ v ∈ st.scheduled_videos, v.id = vid → v.uploaded = false
  | SchedOp.update vid _ _ _ => ∀ v ∈ st.scheduled_videos, v.id = vid → v.uploaded = false
  | SchedOp.clearAll => True
  | SchedOp.tick _ _ => True

/-- States reachable from the empty initial state by operations that satisfy
their side conditions. -/
inductive ReachableOk : SchedulerState → Prop
  | init : ReachableOk initState
  | step (st : SchedulerState) (op : SchedOp) :
      ReachableOk st → okOp st op → ReachableOk (stepOp st op)

/-- States reachable from the empty initial state by arbitrary operation
sequences, with no side condition at all. -/
inductive Reachable : SchedulerState → Prop
  | init : Reachable initState
  | step (st : SchedulerState) (op : SchedOp) : Reachable st → Reachable (stepOp st op)

/-- The internal state invariant: stored ids are distinct, no entry is both
uploaded and cancelled, queued ids are distinct, and every queued id denotes a
stored entry that is not yet uploaded. -/
def Inv (st : SchedulerState) : Prop :=
  (st.scheduled_videos.map (fun v => v.id)).Nodup ∧
  (∀ v ∈ st.scheduled_videos, ¬(v.uploaded = true ∧ v.cancelled = true)) ∧
  ((st.upload_queue.map (fun q => q.2.id)).Nodup) ∧
  (∀ q ∈ st.upload_queue, ∃ w ∈ st.scheduled_videos, w.id = q.2.id ∧ w.uploaded = false)

lemma inv_init : Inv initState := by
  refine ⟨?_, ?_, ?_, ?_⟩ <;> simp [initState]

lemma mem_split_cases (v w : ScheduledUpload) (pre post : List ScheduledUpload)
    (h : v ∈ pre ++ w :: post) : v ∈ pre ∨ v = w ∨ v ∈ post := by
  rcases List.mem_append.mp h with h | h
  · exact Or.inl h
  · rcases List.mem_cons.mp h with h | h
    · exact Or.inr (Or.inl h)
    · exact Or.inr (Or.inr h)

lemma inv_cancel (st : SchedulerState) (vid : String) (hInv : Inv st)
    (hok : ∀ v ∈ st.scheduled_videos, v.id = vid → v.uploaded = false) :
    Inv (cancel_scheduled_video st vid).1 := by
  rcases hInv with ⟨h1, h2, h3, h4⟩
  cases hc : cancelFirst st.scheduled_videos vid with
  | none =>
    simp only [cancel_scheduled_video, hc]
    exact ⟨h1, h2, h3, h4⟩
  | some vs' =>
    rcases cancelFirst_some _ _ _ hc with ⟨pre, w, post, hsp, hw, hpre, hvs'⟩
    have hwmem : w ∈ st.scheduled_videos := by rw [hsp]; simp
    have hwup : w.uploaded = false := hok w hwmem hw
    simp only [cancel_scheduled_video, hc]
    refine ⟨?_, ?_, h3, ?_⟩
    · have : vs'.map (fun v => v.id) = st.scheduled_videos.map (fun v => v.id) := by
        rw [hvs', hsp]; simp
      simpa [this] using h1
    · intro v hv
      rw [hvs'] at hv
      rcases mem_split_cases v _ _ _ hv with h | h | h
      · exact h2 v (by rw [hsp]; simp [h])
      · rw [h]; simp [hwup]
      · exact h2 v (by rw [hsp]; simp [h])
    · intro q hq
      rcases h4 q hq with ⟨w1, hw1mem, hw1id, hw1up⟩
      rw [hsp] at hw1mem
      rcases mem_split_cases w1 _ _ _ hw1mem with h | h | h
      · exact ⟨w1, by rw [hvs']; simp [h], hw1id, hw1up⟩
      · refine ⟨{ w with cancelled := true }, by rw [hvs']; simp, ?_, ?_⟩
        · simpa using h ▸ hw1id
        · simpa using h ▸ hw1up
      · exact ⟨w1, by rw [hvs']; simp [h], hw1id, hw1up⟩

lemma inv_update (st : SchedulerState) (vid : String) (t d : Option String)
    (tg : Option (List String)) (hInv : Inv st) :
    Inv (update_video_metadata st vid t d tg).1 := by
  rcases hInv with ⟨h1, h2, h3, h4⟩
  cases hc : updateFirst st.scheduled_videos vid t d tg with
  | none =>
    simp only [update_video_metadata, hc]
    exact ⟨h1, h2, h3, h4⟩
  | some vs' =>
    rcases updateFirst_some _ _ _ _ _ _ hc with ⟨pre, w, post, hsp, hw, hpre, hvs'⟩
    simp only [update_video_metadata, hc]
    refine ⟨?_, ?_, h3, ?_⟩
    · have : vs'.map (fun v => v.id) = st.scheduled_videos.map (fun v => v.id) := by
        rw [hvs', hsp]; simp
      simpa [this] using h1
    · intro v hv
      rw [hvs'] at hv
      rcases mem_split_cases v _ _ _ hv with h | h | h
      · exact h2 v (by rw [hsp]; simp [h])
      · rw [h]
        have := h2 w (by rw [hsp]; simp)
        simpa using this
      · exact h2 v (by rw [hsp]; simp [h])
    · intro q hq
      rcases h4 q hq with ⟨w1, hw1mem, hw1id, hw1up⟩
      rw [hsp] at hw1mem
      rcases mem_split_cases w1 _ _ _ hw1mem with h | h | h
      · exact ⟨w1, by rw [hvs']; simp [h], hw1id, hw1up⟩
      · refine ⟨{ w with
                  title := t.getD w.title
                  description := d.getD w.description
                  tags := tg.getD w.tags }, by rw [hvs']; simp, ?_, ?_⟩
        · simpa using h ▸ hw1id
        · simpa using h ▸ hw1up
      · exact ⟨w1, by rw [hvs']; simp [h], hw1id, hw1up⟩

lemma importLoop_flags (files : List FileEntry) (ids : List String) (rands : List Nat)
    (current intervalMinutes : Int) (randomizedHourly : Bool) (accountId privacy : String) :
    ∀ e ∈ importLoop files ids rands current intervalMinutes randomizedHourly accountId privacy,
      e.uploaded = false ∧ e.cancelled = false := by
  induction files generalizing ids rands current with
  | nil => simp [importLoop]
  | cons f fs ih =>
    cases hm : f.meta with
    | none =>
      intro e he
      exact ih ids rands current e (by simpa [importLoop, hm] using he)
    | some m =>
      intro e he
      rcases List.mem_cons.mp (by simpa [importLoop, hm] using he) with h | h
      · rw [h]; exact ⟨rfl, rfl⟩
      · exact ih ids.tail _ _ e h

lemma inv_clear (st : SchedulerState) (hInv : Inv st) :
    Inv (clear_all_scheduled_videos st).1 := by
  rcases hInv with ⟨h1, h2, _h3, _h4⟩
  refine ⟨?_, ?_, by simp [clear_all_scheduled_videos], by simp [clear_all_scheduled_videos]⟩
  · have hsub : (st.scheduled_videos.filter (fun v => v.uploaded || v.cancelled)).Sublist
        st.scheduled_videos := List.filter_sublist _
    exact List.Nodup.sublist (List.Sublist.map _ hsub) h1
  · intro v hv
    exact h2 v (List.mem_of_mem_filter hv)

lemma inv_imp (st : SchedulerState) (files : List FileEntry) (ids : List String)
    (rands : List Nat) (a : String) (ih : Int) (s : Option Int) (r : Bool) (p : String)
    (now : Int) (hInv : Inv st)
    (hok : ((st.scheduled_videos.map (fun v => v.id)) ++
      ((impCreated files ids rands a ih s r p now).map (fun v => v.id))).Nodup) :
    Inv (import_folder st files ids rands a ih s r p now).1 := by
  rcases hInv with ⟨h1, h2, h3, h4⟩
  by_cases hf : files.isEmpty
  · simpa [import_folder, hf] using ⟨h1, h2, h3, h4⟩
  · set created := impCreated files ids rands a ih s r p now with hcreated
    have hstep : (import_folder st files ids rands a ih s r p now).1 =
        { st with
          scheduled_videos := st.scheduled_videos ++ created
          upload_queue := st.upload_queue ++ created.map (fun e => (e.scheduled_time, e))
          fileWrites := st.fileWrites + 1 } := by
      simp [import_folder, hf, ← hcreated]
    rw [hstep]
    have hflags : ∀ e ∈ created, e.uploaded = false ∧ e.cancelled = false := by
      intro e he
      exact importLoop_flags files ids rands _ _ r a p e he
    have hnodup := hok
    rw [List.nodup_append] at hnodup
    refine ⟨?_, ?_, ?_, ?_⟩
    · simpa using hok
    · intro v hv
      rcases List.mem_append.mp hv with h | h
      · exact h2 v h
      · rcases hflags v h with ⟨hu, _⟩
        simp [hu]
    · have hqsub : ∀ x ∈ st.upload_queue.map (fun q => q.2.id),
          x ∈ st.scheduled_videos.map (fun v => v.id) := by
        intro x hx
        rcases List.mem_map.mp hx with ⟨q, hq, hqx⟩
        rcases h4 q hq with ⟨w, hwmem, hwid, _⟩
        exact List.mem_map.mpr ⟨w, hwmem, by rw [hwid, hqx]⟩
      show ((st.upload_queue ++ created.map (fun e => (e.scheduled_time, e))).map
        (fun q => q.2.id)).Nodup
      rw [List.map_append, List.nodup_append]
      refine ⟨h3, ?_, ?_⟩
      · have : (created.map (fun e => (e.scheduled_time, e))).map (fun q => q.2.id) =
            created.map (fun v => v.id) := by simp
        rw [this]
        exact hnodup.2.1
      · intro x hx hy
        have hxs : x ∈ st.scheduled_videos.map (fun v => v.id) := hqsub x hx
        have hyc : x ∈ created.map (fun v => v.id) := by simpa using hy
        exact hnodup.2.2 hxs hyc
    · intro q hq
      rcases List.mem_append.mp hq with h | h
      · rcases h4 q h with ⟨w, hwmem, hwid, hwup⟩
        exact ⟨w, List.mem_append.mpr (Or.inl hwmem), hwid, hwup⟩
      · rcases List.mem_map.mp h with ⟨e, he, hqe⟩
        refine ⟨e, List.mem_append.mpr (Or.inr he), by rw [← hqe], (hflags e he).1⟩

lemma inv_tick (st : SchedulerState) (now : Int) (exec : ScheduledUpload → ExecResult)
    (hInv : Inv st) : Inv (scheduler_tick st now exec).1 := by
  rcases hInv with ⟨h1, h2, h3, h4⟩
  cases hp : popMin st.upload_queue with
  | none =>
    simp only [scheduler_tick, hp]
    exact ⟨h1, h2, h3, h4⟩
  | some pr =>
    rcases pr with ⟨⟨p, v⟩, rest⟩
    have hperm := popMin_perm _ _ _ hp
    have hqno : (v.id :: rest.map (fun q => q.2.id)).Nodup := by
      have := (List.Perm.map (fun q => q.2.id) hperm).nodup_iff.mpr h3
      simpa using this
    have hvidrest : v.id ∉ rest.map (fun q => q.2.id) := (List.nodup_cons.mp hqno).1
    have hrestno : (rest.map (fun q => q.2.id)).Nodup := (List.nodup_cons.mp hqno).2
    have hrestmem : ∀ q ∈ rest, q ∈ st.upload_queue := by
      intro q hq
      exact hperm.subset (List.mem_cons_of_mem _ hq)
    by_cases hnow : p ≤ now
    · cases hff : findFirst st.scheduled_videos v.id with
      | none =>
        simp only [scheduler_tick, hp, if_pos hnow, hff]
        exact ⟨h1, h2, hrestno, fun q hq => h4 q (hrestmem q hq)⟩
      | some w =>
        by_cases hcanc : w.cancelled
        · simp only [scheduler_tick, hp, if_pos hnow, hff, hcanc, if_pos]
          exact ⟨h1, h2, hrestno, fun q hq => h4 q (hrestmem q hq)⟩
        · have hcanc' : w.cancelled = false := by simpa using hcanc
          simp only [scheduler_tick, hp, if_pos hnow, hff, hcanc', Bool.false_eq_true,
            if_neg, if_false]
          rcases findFirst_decomp _ _ _ hff with ⟨pre, post, hsp, hpre, hwid⟩
          have hwmem : w ∈ st.scheduled_videos := by rw [hsp]; simp
          have hpv : (p, v) ∈ st.upload_queue := hperm.subset (List.mem_cons_self _ _)
          rcases h4 _ hpv with ⟨w0, hw0mem, hw0id, hw0up⟩
          have hww0 : w0 = w :=
            List.inj_on_of_nodup_map h1 hw0mem hwmem (by rw [hw0id, hwid])
          have hwup : w.uploaded = false := hww0 ▸ hw0up
          have hset : setOutcome st.scheduled_videos v.id (exec v) =
              pre ++ applyOutcome w (exec v) :: post := by
            rw [hsp]; exact setOutcome_app pre w post v.id (exec v) hwid hpre
          refine ⟨?_, ?_, hrestno, ?_⟩
          · show ((setOutcome st.scheduled_videos v.id (exec v)).map (fun u => u.id)).Nodup
            rw [setOutcome_map_id]
            exact h1
          · show ∀ u ∈ setOutcome st.scheduled_videos v.id (exec v),
              ¬(u.uploaded = true ∧ u.cancelled = true)
            rw [hset]
            intro u hu
            rcases mem_split_cases u _ _ _ hu with h | h | h
            · exact h2 u (by rw [hsp]; simp [h])
            · rw [h]
              cases hr : exec v with
              | success ytid => simp [applyOutcome, hcanc']
              | failure msg =>
                have := h2 w hwmem
                simpa [applyOutcome] using this
            · exact h2 u (by rw [hsp]; simp [h])
          · show ∀ q ∈ rest, ∃ u ∈ setOutcome st.scheduled_videos v.id (exec v),
              u.id = q.2.id ∧ u.uploaded = false
            intro q hq
            rcases h4 q (hrestmem q hq) with ⟨w1, hw1mem, hw1id, hw1up⟩
            have hqid : q.2.id ∈ rest.map (fun x => x.2.id) :=
              List.mem_map.mpr ⟨q, hq, rfl⟩
            have hw1ne : w1 ≠ w := by
              intro hcontra
              apply hvidrest
              rw [← hw1id, hcontra, hwid] at hqid
              exact hqid
            rw [hsp] at hw1mem
            rcases mem_split_cases w1 _ _ _ hw1mem with h | h | h
            · exact ⟨w1, by rw [hset]; simp [h], hw1id, hw1up⟩
            · exact absurd h hw1ne
            · exact ⟨w1, by rw [hset]; simp [h], hw1id, hw1up⟩
    · simp only [scheduler_tick, hp, if_neg hnow]
      exact ⟨h1, h2, h3, h4⟩

lemma inv_step (st : SchedulerState) (op : SchedOp) (hInv : Inv st) (hok : okOp st op) :
    Inv (stepOp st op) := by
  cases op with
  | imp files ids rands a ih s r p now => exact inv_imp st files ids rands a ih s r p now hInv hok
  | cancel vid => exact inv_cancel st vid hInv hok
  | update vid t d tg => exact inv_update st vid t d tg hInv
  | clearAll => exact inv_clear st hInv
  | tick now exec => exact inv_tick st now exec hInv

lemma uploaded_frozen_step (st : SchedulerState) (op : SchedOp) (hInv : Inv st)
    (hok : okOp st op) :
    ∀ v ∈ st.scheduled_videos, v.uploaded = true → v ∈ (stepOp st op).scheduled_videos := by
  rcases hInv with ⟨h1, _h2, _h3, h4⟩
  intro v hv hup
  cases op with
  | imp files ids rands a ih s r p now =>
    by_cases hf : files.isEmpty
    · simpa [stepOp, import_folder, hf] using hv
    · simp only [stepOp, import_folder, hf]
      simp [hv]
  | cancel vid =>
    cases hc : cancelFirst st.scheduled_videos vid with
    | none => simpa [stepOp, cancel_scheduled_video, hc] using hv
    | some vs' =>
      simp only [stepOp, cancel_scheduled_video, hc]
      rcases cancelFirst_some _ _ _ hc with ⟨pre, w, post, hsp, hw, _hpre, hvs'⟩
      have hwup : w.uploaded = false := hok w (by rw [hsp]; simp) hw
      rw [hsp] at hv
      rcases mem_split_cases v _ _ _ hv with h | h | h
      · show v ∈ vs'; rw [hvs']; simp [h]
      · rw [h] at hup; rw [hwup] at hup; exact absurd hup (by simp)
      · show v ∈ vs'; rw [hvs']; simp [h]
  | update vid t d tg =>
    cases hc : updateFirst st.scheduled_videos vid t d tg with
    | none => simpa [stepOp, update_video_metadata, hc] using hv
    | some vs' =>
      simp only [stepOp, update_video_metadata, hc]
      rcases updateFirst_some _ _ _ _ _ _ hc with ⟨pre, w, post, hsp, hw, _hpre, hvs'⟩
      have hwup : w.uploaded = false := hok w (by rw [hsp]; simp) hw
      rw [hsp] at hv
      rcases mem_split_cases v _ _ _ hv with h | h | h
      · show v ∈ vs'; rw [hvs']; simp [h]
      · rw [h] at hup; rw [hwup] at hup; exact absurd hup (by simp)
      · show v ∈ vs'; rw [hvs']; simp [h]
  | clearAll =>
    simp only [stepOp, clear_all_scheduled_videos]
    exact List.mem_filter.mpr ⟨hv, by simp [hup]⟩
  | tick now exec =>
    cases hp : popMin st.upload_queue with
    | none => simpa [stepOp, scheduler_tick, hp] using hv
    | some pr =>
      rcases pr with ⟨⟨p, q⟩, rest⟩
      have hperm := popMin_perm _ _ _ hp
      by_cases hnow : p ≤ now
      · cases hff : findFirst st.scheduled_videos q.id with
        | none => simpa [stepOp, scheduler_tick, hp, if_pos hnow, hff] using hv
        | some w =>
          by_cases hcanc : w.cancelled
          · simpa [stepOp, scheduler_tick, hp, if_pos hnow, hff, hcanc] using hv
          · have hcanc' : w.cancelled = false := by simpa using hcanc
            simp only [stepOp, scheduler_tick, hp, if_pos hnow, hff, hcanc',
              Bool.false_eq_true, if_neg, if_false]
            rcases findFirst_decomp _ _ _ hff with ⟨pre, post, hsp, hpre, hwid⟩
            have hwmem : w ∈ st.scheduled_videos := by rw [hsp]; simp
            have hpv : (p, q) ∈ st.upload_queue := hperm.subset (List.mem_cons_self _ _)
            rcases h4 _ hpv with ⟨w0, hw0mem, hw0id, hw0up⟩
            have hww0 : w0 = w :=
              List.inj_on_of_nodup_map h1 hw0mem hwmem (by rw [hw0id, hwid])
            have hwup : w.uploaded = false := hww0 ▸ hw0up
            have hset : setOutcome st.scheduled_videos q.id (exec q) =
                pre ++ applyOutcome w (exec q) :: post := by
              rw [hsp]; exact setOutcome_app pre w post q.id (exec q) hwid hpre
            show v ∈ setOutcome st.scheduled_videos q.id (exec q)
            rw [hset]
            rw [hsp] at hv
            rcases mem_split_cases v _ _ _ hv with h | h | h
            · simp [h]
            · rw [h] at hup; rw [hwup] at hup; exact absurd hup (by simp)
            · simp [h]
      · simpa [stepOp, scheduler_tick, hp, if_neg hnow] using hv

lemma inv_reachable (st : SchedulerState) (h : ReachableOk st) : Inv st := by
  induction h with
  | init => exact inv_init
  | step st' op hr hok ih => exact inv_step _ _ ih hok

lemma decodeStrings_map_str (xs : List String) :
    decodeStrings (xs.map Json.str) = some xs := by
  induction xs with
  | nil => rfl
  | cons x xs ih => simp [decodeStrings, ih]

lemma decode_encode (v : ScheduledUpload) : decodeEntry (encodeEntry v) = some v := by
  have heta :
      ({ id := v.id
         file_path := v.file_path
         account_id := v.account_id
         scheduled_time := v.scheduled_time
         title := v.title
         description := v.description
         tags := v.tags
         privacy_status := v.privacy_status
         uploaded := v.uploaded
         cancelled := v.cancelled
         randomized := v.randomized
         video_id := v.video_id
         error := v.error } : ScheduledUpload) = v := rfl
  cases hvid : v.video_id <;> cases herr : v.error <;>
    rw [hvid, herr] at heta <;>
    simp [encodeEntry, decodeEntry, jsonGet, asStr, asInt, asBool, asStrList,
      decodeStrings_map_str, hvid, herr, heta]

lemma decodeAll_map_encode (l : List ScheduledUpload) :
    decodeAll (l.map encodeEntry) = some l := by
  induction l with
  | nil => rfl
  | cons v l ih => simp [decodeAll, decode_encode, ih]

lemma load_save (l : List ScheduledUpload) : load_schedule (some (save_schedule l)) = l := by
  simp [load_schedule, save_schedule, jsonGet, decodeAll_map_encode]

lemma importLoop_head_time :
    ∀ (files : List FileEntry) (ids : List String) (rands : List Nat)
      (current k : Int) (r : Bool) (a p : String) (e : ScheduledUpload),
      (importLoop files ids rands current k r a p).head? = some e →
      e.scheduled_time = current := by
  intro files
  induction files with
  | nil => intro ids rands current k r a p e h; simp [importLoop] at h
  | cons f fs ih =>
    intro ids rands current k r a p e h
    cases hm : f.meta with
    | none => exact ih ids rands current k r a p e (by simpa [importLoop, hm] using h)
    | some m =>
      have : (importLoop (f :: fs) ids rands current k r a p).head? ≠ none := by simp [h]
      simp only [importLoop, hm, List.head?_cons] at h
      have he := h.symm
      rw [Option.some.injEq] at h
      rw [← h]

lemma importLoop_length (files : List FileEntry) (ids : List String) (rands : List Nat)
    (current k : Int) (r : Bool) (a p : String) (h : ∀ f ∈ files, f.meta.isSome) :
    (importLoop files ids rands current k r a p).length = files.length := by
  induction files generalizing ids rands current with
  | nil => rfl
  | cons f fs ih =>
    rcases Option.isSome_iff_exists.mp (h f (List.mem_cons_self f fs)) with ⟨m, hm⟩
    simp [importLoop, hm, ih _ _ _ (fun x hx => h x (List.mem_cons_of_mem f hx))]

lemma importLoop_fixed_times (files : List FileEntry) (ids : List String) (rands : List Nat)
    (current k : Int) (a p : String) (h : ∀ f ∈ files, f.meta.isSome) :
    (importLoop files ids rands current k false a p).map (fun e => e.scheduled_time) =
      (List.range files.length).map (fun i : Nat => current + k * (i : Int)) := by
  induction files generalizing ids rands current with
  | nil => simp [importLoop]
  | cons f fs ih =>
    rcases Option.isSome_iff_exists.mp (h f (List.mem_cons_self f fs)) with ⟨m, hm⟩
    have ihfs := ih ids.tail rands (current + k) (fun x hx => h x (List.mem_cons_of_mem f hx))
    simp only [importLoop, hm, Bool.false_eq_true, if_false, List.map_cons, List.length_cons]
    rw [ihfs, List.range_succ_eq_map, List.map_cons, List.map_map]
    refine List.cons_eq_cons.mpr ⟨by simp, ?_⟩
    apply List.map_congr_left
    intro i _
    simp only [Function.comp_apply]
    push_cast
    ring

lemma importLoop_rand_chain (files : List FileEntry) (ids : List String) (rands : List Nat)
    (current k : Int) (a p : String) (hmeta : ∀ f ∈ files, f.meta.isSome)
    (hr : ∀ x ∈ rands, 60 ≤ x ∧ x ≤ 70) :
    List.Chain' (fun t1 t2 => 60 ≤ t2 - t1 ∧ t2 - t1 ≤ 70)
      ((importLoop files ids rands current k true a p).map (fun e => e.scheduled_time)) := by
  induction files generalizing ids rands current with
  | nil => simp [importLoop]
  | cons f fs ih =>
    rcases Option.isSome_iff_exists.mp (hmeta f (List.mem_cons_self f fs)) with ⟨m, hm⟩
    have hrtail : ∀ x ∈ rands.tail, 60 ≤ x ∧ x ≤ 70 := by
      intro x hx
      exact hr x (List.mem_of_mem_tail hx)
    have hrhead : 60 ≤ rands.headD 60 ∧ rands.headD 60 ≤ 70 := by
      cases rands with
      | nil => simp
      | cons x xs => exact hr x (List.mem_cons_self x xs)
    have ihfs := ih ids.tail rands.tail (current + (rands.headD 60 : Nat))
      (fun x hx => hmeta x (List.mem_cons_of_mem f hx)) hrtail
    simp only [importLoop, hm, if_pos, List.map_cons]
    apply List.chain'_cons'.mpr
    refine ⟨?_, ihfs⟩
    intro y hy
    rw [List.head?_map] at hy
    rcases Option.map_eq_some'.mp hy with ⟨e, he, hye⟩
    have := importLoop_head_time _ _ _ _ _ _ _ _ _ he
    rw [← hye, this]
    have h1 := hrhead.1
    have h2 := hrhead.2
    constructor
    · have : (current + (rands.headD 60 : Nat)) - current = ((rands.headD 60 : Nat) : Int) := by
        ring
      rw [this]
      exact_mod_cast h1
    · have : (current + (rands.headD 60 : Nat)) - current = ((rands.headD 60 : Nat) : Int) := by
        ring
      rw [this]
      exact_mod_cast h2

lemma uploadLoop_transient_step (s : Nat) (rest : List ChunkOutcome) (err : Bool)
    (retry maxR : Nat) (hlt : retry < maxR) (hs : isTransient s = true) :
    uploadLoop (ChunkOutcome.httpError s :: rest) none err retry maxR =
      { result := (uploadLoop rest none true (retry + 1) maxR).result
        sleeps := 2 ^ (retry + 1) :: (uploadLoop rest none true (retry + 1) maxR).sleeps
        remaining := (uploadLoop rest none true (retry + 1) maxR).remaining } := by
  rw [uploadLoop.eq_def]
  simp [Nat.not_le.mpr hlt, hs]

lemma uploadLoop_client_error (s : Nat) (rest : List ChunkOutcome) (err : Bool)
    (retry maxR : Nat) (hlt : retry < maxR) (hs : isTransient s = false) :
    uploadLoop (ChunkOutcome.httpError s :: rest) none err retry maxR =
      { result := none, sleeps := [], remaining := rest } := by
  rw [uploadLoop.eq_def]
  simp [Nat.not_le.mpr hlt, hs]

lemma uploadLoop_maxed (chunks : List ChunkOutcome) (err : Bool) (maxR : Nat) :
    uploadLoop chunks none err maxR maxR =
      { result := none, sleeps := [], remaining := chunks } := by
  rw [uploadLoop.eq_def]
  simp

lemma tick_exec_mem (st : SchedulerState) (now : Int) (exec : ScheduledUpload → ExecResult)
    (u : ScheduledUpload) (h : (scheduler_tick st now exec).2 = some u) :
    ∃ p, (p, u) ∈ st.upload_queue := by
  cases hp : popMin st.upload_queue with
  | none => simp [scheduler_tick, hp] at h
  | some pr =>
    rcases pr with ⟨⟨p, v⟩, rest⟩
    have hperm := popMin_perm _ _ _ hp
    have hmem : (p, v) ∈ st.upload_queue := hperm.subset (List.mem_cons_self _ _)
    by_cases hnow : p ≤ now
    · cases hff : findFirst st.scheduled_videos v.id with
      | none =>
        simp only [scheduler_tick, hp, if_pos hnow, hff] at h
        rw [Option.some.injEq] at h
        exact ⟨p, h ▸ hmem⟩
      | some w =>
        by_cases hcanc : w.cancelled
        · simp [scheduler_tick, hp, if_pos hnow, hff, hcanc] at h
        · have hcanc' : w.cancelled = false := by simpa using hcanc
          simp only [scheduler_tick, hp, if_pos hnow, hff, hcanc', Bool.false_eq_true,
            if_false] at h
          rw [Option.some.injEq] at h
          exact ⟨p, h ▸ hmem⟩
    · simp [scheduler_tick, hp, if_neg hnow] at h

lemma tick_exec_not_cancelled (st : SchedulerState) (now : Int)
    (exec : ScheduledUpload → ExecResult) (u w : ScheduledUpload)
    (h : (scheduler_tick st now exec).2 = some u)
    (hw : findFirst st.scheduled_videos u.id = some w) : w.cancelled = false := by
  cases hp : popMin st.upload_queue with
  | none => simp [scheduler_tick, hp] at h
  | some pr =>
    rcases pr with ⟨⟨p, v⟩, rest⟩
    by_cases hnow : p ≤ now
    · cases hff : findFirst st.scheduled_videos v.id with
      | none =>
        simp only [scheduler_tick, hp, if_pos hnow, hff] at h
        rw [Option.some.injEq] at h
        rw [h] at hff
        rw [hff] at hw
        cases hw
      | some w' =>
        by_cases hcanc : w'.cancelled
        · simp [scheduler_tick, hp, if_pos hnow, hff, hcanc] at h
        · have hcanc' : w'.cancelled = false := by simpa using hcanc
          simp only [scheduler_tick, hp, if_pos hnow, hff, hcanc', Bool.false_eq_true,
            if_false] at h
          rw [Option.some.injEq] at h
          rw [h] at hff
          rw [hff] at hw
          rw [Option.some.injEq] at hw
          rw [← hw]
          exact hcanc'
    · simp [scheduler_tick, hp, if_neg hnow] at h

lemma load_state_enqueues (l : List ScheduledUpload) (v : ScheduledUpload)
    (hv : v ∈ l) (hup : v.uploaded = false) (hc : v.cancelled = false) :
    (v.scheduled_time, v) ∈ (load_state (some (save_schedule l))).upload_queue := by
  simp only [load_state, load_save]
  exact List.mem_map.mpr ⟨v, List.mem_filter.mpr ⟨hv, by simp [hup, hc]⟩, rfl⟩

/-! Concrete demonstration states used by counterexamples and witnesses. -/

/-- One imported folder entry whose metadata generation succeeds. -/
def demoFile : FileEntry :=
  { path := "/videos/a.mp4"
    meta := some { title := "T", description := "D", hashtags := ["x"] } }

/-- The record `import_folder` creates for `demoFile` at start time 0. -/
def demoEntry : ScheduledUpload :=
  { id := "vid-1"
    file_path := "/videos/a.mp4"
    account_id := "acct"
    scheduled_time := 0
    title := "T"
    description := "D"
    tags := ["x"]
    privacy_status := "unlisted"
    uploaded := false
    cancelled := false
    randomized := false
    video_id := none
    error := none }

/-- State after importing one video due at time 0. -/
def st1 : SchedulerState :=
  (import_folder initState [demoFile] ["vid-1"] [] "acct" 1 (some 0) false "unlisted" 0).1

/-- State after the scheduler loop successfully uploads the imported video. -/
def st2 : SchedulerState :=
  (scheduler_tick st1 100 (fun _ => ExecResult.success "YT1")).1

/-- State after additionally cancelling the already-uploaded entry. -/
def st3 : SchedulerState := (cancel_scheduled_video st2 "vid-1").1

/-- State after cancelling the still-pending entry of `st1` (the queue still
holds the snapshot). -/
def st4 : SchedulerState := (cancel_scheduled_video st1 "vid-1").1

/-- First poll tick on `st1` with a failing executor. -/
def c3FirstTick : SchedulerState × Option ScheduledUpload :=
  scheduler_tick st1 100 (fun _ => ExecResult.failure "boom")

/-- The next poll tick after the failed execution. -/
def c3SecondTick : SchedulerState × Option ScheduledUpload :=
  scheduler_tick c3FirstTick.1 100 (fun _ => ExecResult.failure "boom")

/-- C1, counterexample: cancelling the already-uploaded entry of `st2` is not a
no-op returning false — the code returns true and flips `cancelled` on the
uploaded entry. -/
theorem C1_counterexample_cancel_uploaded :
    (cancel_scheduled_video st2 "vid-1").2 = true ∧
    (cancel_scheduled_video st2 "vid-1").1.scheduled_videos ≠ st2.scheduled_videos := by
  decide

/-- C1 (amended): `cancel_scheduled_video` returns false and changes nothing
iff no stored entry has the id; otherwise it sets `cancelled := true` on the
first matching entry regardless of its uploaded/cancelled state, saves the
schedule, and returns true. -/
theorem C1_cancel_characterization (st : SchedulerState) (vid : String) :
    ((∀ v ∈ st.scheduled_videos, v.id ≠ vid) → cancel_scheduled_video st vid = (st, false)) ∧
    (∀ pre w post, st.scheduled_videos = pre ++ w :: post → (∀ u ∈ pre, u.id ≠ vid) →
      w.id = vid →
      cancel_scheduled_video st vid =
        ({ st with
           scheduled_videos := pre ++ { w with cancelled := true } :: post
           fileWrites := st.fileWrites + 1 }, true)) := by
  constructor
  · intro hno
    simp [cancel_scheduled_video, cancelFirst_no_match st.scheduled_videos vid hno]
  · intro pre w post hsp hpre hw
    have := cancelFirst_app pre w post vid hw hpre
    rw [← hsp] at this
    simp [cancel_scheduled_video, this]

/-- C1 witness: concrete instance of the characterization on an id that is not
stored. -/
theorem C1_cancel_characterization_witness :
    cancel_scheduled_video st2 "nope" = (st2, false) :=
  (C1_cancel_characterization st2 "nope").1 (by decide)

/-- C2, counterexample: the state reached by import, successful upload tick,
then cancel of the uploaded id contains an entry with `uploaded` and
`cancelled` both true. -/
theorem C2_counterexample_both_flags :
    Reachable st3 ∧ ∃ v ∈ st3.scheduled_videos, v.uploaded = true ∧ v.cancelled = true := by
  constructor
  · have h1 : Reachable st1 :=
      Reachable.step initState
        (SchedOp.imp [demoFile] ["vid-1"] [] "acct" 1 (some 0) false "unlisted" 0)
        Reachable.init
    have h2 : Reachable st2 :=
      Reachable.step st1 (SchedOp.tick 100 (fun _ => ExecResult.success "YT1")) h1
    exact Reachable.step st2 (SchedOp.cancel "vid-1") h2
  · decide

/-- C2 (amended): in every state reachable by operations whose side conditions
hold (fresh imported ids; cancel and metadata-update never aimed at an
uploaded entry), no stored entry is both uploaded and cancelled, and an
uploaded record is carried unchanged into the next state by any such
operation. -/
theorem C2_invariant_guarded (st : SchedulerState) (h : ReachableOk st) :
    (∀ v ∈ st.scheduled_videos, ¬(v.uploaded = true ∧ v.cancelled = true)) ∧
    (∀ op, okOp st op → ∀ v ∈ st.scheduled_videos, v.uploaded = true →
      v ∈ (stepOp st op).scheduled_videos) := by
  have hInv := inv_reachable st h
  exact ⟨hInv.2.1, fun op hok => uploaded_frozen_step st op hInv hok⟩

/-- C2 witness: the guarded invariant instantiated on the concrete reachable
state holding one uploaded record. -/
theorem C2_invariant_guarded_witness :
    ¬(({ demoEntry with uploaded := true, video_id := some "YT1" } :
        ScheduledUpload).uploaded = true ∧
      ({ demoEntry with uploaded := true, video_id := some "YT1" } :
        ScheduledUpload).cancelled = true) :=
  (C2_invariant_guarded st2
    (ReachableOk.step st1 (SchedOp.tick 100 (fun _ => ExecResult.success "YT1"))
      (ReachableOk.step initState
        (SchedOp.imp [demoFile] ["vid-1"] [] "acct" 1 (some 0) false "unlisted" 0)
        ReachableOk.init (by simp only [okOp]; decide))
      trivial)).1
    { demoEntry with uploaded := true, video_id := some "YT1" } (by decide)

/-- C3, counterexample: after a failed execution the entry is pending with the
error recorded, but the very next poll tick executes nothing at all — the item
was popped from the queue and is not re-enqueued, so there is no retry on the
next tick. -/
theorem C3_counterexample_no_retry :
    (c3FirstTick.1.scheduled_videos.map (fun v => (v.uploaded, v.cancelled, v.error)) =
      [(false, false, some "boom")]) ∧
    c3FirstTick.2 = some demoEntry ∧
    c3SecondTick.2 = none := by
  decide

/-- C3 (amended): a failed execution leaves the entry pending (uploaded=false,
cancelled=false) with the error recorded and `scheduled_time` unchanged, but
the item is removed from the queue and the loop only ever executes queued
items, so it is not retried in this run; only reloading the schedule from disk
re-enqueues pending entries. -/
theorem C3_failure_semantics (st : SchedulerState) (now p : Int)
    (exec : ScheduledUpload → ExecResult) (v w : ScheduledUpload)
    (rest : List (Int × ScheduledUpload)) (msg : String)
    (hq : popMin st.upload_queue = some ((p, v), rest)) (hdue : p ≤ now)
    (hw : findFirst st.scheduled_videos v.id = some w) (hcanc : w.cancelled = false)
    (hpend : w.uploaded = false) (hexec : exec v = ExecResult.failure msg) :
    ((scheduler_tick st now exec).2 = some v) ∧
    (∃ pre post, st.scheduled_videos = pre ++ w :: post ∧
      (scheduler_tick st now exec).1.scheduled_videos =
        pre ++ { w with error := some msg } :: post) ∧
    ({ w with error := some msg }).uploaded = false ∧
    ({ w with error := some msg }).cancelled = false ∧
    ({ w with error := some msg }).scheduled_time = w.scheduled_time ∧
    ((scheduler_tick st now exec).1.upload_queue = rest) ∧
    (∀ (st' : SchedulerState) (now' : Int) (exec' : ScheduledUpload → ExecResult)
      (u : ScheduledUpload), (scheduler_tick st' now' exec').2 = some u →
      ∃ p', (p', u) ∈ st'.upload_queue) ∧
    (∀ (l : List ScheduledUpload) (u : ScheduledUpload), u ∈ l → u.uploaded = false →
      u.cancelled = false →
      (u.scheduled_time, u) ∈ (load_state (some (save_schedule l))).upload_queue) := by
  rcases findFirst_decomp _ _ _ hw with ⟨pre, post, hsp, hpre, hwid⟩
  have hset : setOutcome st.scheduled_videos v.id (exec v) =
      pre ++ { w with error := some msg } :: post := by
    rw [hsp, hexec]
    exact setOutcome_app pre w post v.id (ExecResult.failure msg) hwid hpre
  refine ⟨?_, ⟨pre, post, hsp, ?_⟩, by simp [hpend], by simp [hcanc], rfl, ?_, ?_, ?_⟩
  · simp [scheduler_tick, hq, if_pos hdue, hw, hcanc]
  · simp only [scheduler_tick, hq, if_pos hdue, hw, hcanc, Bool.false_eq_true, if_false]
    rw [hcanc] at hset
    exact hset
  · simp [scheduler_tick, hq, if_pos hdue, hw, hcanc]
  · intro st' now' exec' u hu
    exact tick_exec_mem st' now' exec' u hu
  · intro l u hul huup huc
    exact load_state_enqueues l u hul huup huc

/-- C3 witness: the failure semantics instantiated on the concrete one-entry
state with a failing executor. -/
theorem C3_failure_semantics_witness :
    (scheduler_tick st1 100 (fun _ => ExecResult.failure "boom")).2 = some demoEntry ∧
    (scheduler_tick st1 100 (fun _ => ExecResult.failure "boom")).1.upload_queue = [] := by
  have h := C3_failure_semantics st1 100 0 (fun _ => ExecResult.failure "boom")
    demoEntry demoEntry [] "boom" (by decide) (by decide) (by decide) rfl rfl rfl
  exact ⟨h.1, h.2.2.2.2.2.1⟩

/-- C5: when the popped due item's stored record is already cancelled, the tick
discards it silently — nothing is executed, no store field (including `error`)
changes, the schedule file is not rewritten, and the item merely leaves the
queue; moreover a tick never executes an item whose stored record is
cancelled. -/
theorem C5_cancelled_never_executed (st : SchedulerState) (now p : Int)
    (exec : ScheduledUpload → ExecResult) (v w : ScheduledUpload)
    (rest : List (Int × ScheduledUpload))
    (hq : popMin st.upload_queue = some ((p, v), rest)) (hdue : p ≤ now)
    (hw : findFirst st.scheduled_videos v.id = some w) (hcanc : w.cancelled = true) :
    scheduler_tick st now exec = ({ st with upload_queue := rest }, none) ∧
    (∀ (st' : SchedulerState) (now' : Int) (exec' : ScheduledUpload → ExecResult)
      (u w' : ScheduledUpload), (scheduler_tick st' now' exec').2 = some u →
      findFirst st'.scheduled_videos u.id = some w' → w'.cancelled = false) := by
  constructor
  · simp [scheduler_tick, hq, if_pos hdue, hw, hcanc]
  · intro st' now' exec' u w' hu hw'
    exact tick_exec_not_cancelled st' now' exec' u w' hu hw'

/-- C5 witness: the skip behaviour on the concrete state whose pending entry
was cancelled after being queued. -/
theorem C5_cancelled_never_executed_witness :
    scheduler_tick st4 100 (fun _ => ExecResult.failure "x") =
      ({ st4 with upload_queue := [] }, none) :=
  (C5_cancelled_never_executed st4 100 0 (fun _ => ExecResult.failure "x") demoEntry
    { demoEntry with cancelled := true } [] (by decide) (by decide) (by decide) rfl).1

lemma uploadLoop_all_transient (k : Nat) : ∀ (retry : Nat) (rest : List ChunkOutcome)
    (err : Bool), retry + k = 10 →
    uploadLoop (List.replicate k (ChunkOutcome.httpError 503) ++ rest) none err retry 10 =
      { result := none
        sleeps := (List.range k).map (fun i => 2 ^ (retry + 1 + i))
        remaining := rest } := by
  induction k with
  | zero =>
    intro retry rest err h
    have hr : retry = 10 := by omega
    subst hr
    simpa using uploadLoop_maxed rest err 10
  | succ k ihk =>
    intro retry rest err h
    have hlt : retry < 10 := by omega
    rw [List.replicate_succ, List.cons_append,
      uploadLoop_transient_step 503 _ err retry 10 hlt (by simp [isTransient]),
      ihk (retry + 1) rest true (by omega)]
    refine congrArg (fun sl => UploadRun.mk none sl rest) ?_
    rw [List.range_succ_eq_map, List.map_cons, List.map_map]
    refine List.cons_eq_cons.mpr ⟨by norm_num, ?_⟩
    apply List.map_congr_left
    intro i _
    simp only [Function.comp_apply]
    congr 1
    omega

/-- C4: the retry loop never clears its `error` variable, so a success that
arrives after a retried transient server error is still reported as a failed
upload (`None`), while the same success with no preceding transient error
returns the remote identifier.  This contradicts the documented intent of the
retry policy. -/
theorem C4_success_after_transient_lost :
    resumable_upload [ChunkOutcome.httpError 503, ChunkOutcome.done "abc"] 10 =
      { result := none, sleeps := [2], remaining := [] } ∧
    resumable_upload [ChunkOutcome.done "abc"] 10 =
      { result := some "abc", sleeps := [], remaining := [] } := ⟨rfl, rfl⟩

/-- C6: transient server errors (500/502/503/504) are retried, with the n-th
retry sleeping 2^n time units; a 4xx client error stops the attempt at once
with no sleep and no further chunk consumed; and ten transient errors exhaust
the maximum attempt count, after which the execution fails. -/
theorem C6_backoff_policy :
    (∀ (s : Nat) (rest : List ChunkOutcome) (err : Bool) (retry : Nat), retry < 10 →
      (s = 500 ∨ s = 502 ∨ s = 503 ∨ s = 504) →
      uploadLoop (ChunkOutcome.httpError s :: rest) none err retry 10 =
        { result := (uploadLoop rest none true (retry + 1) 10).result
          sleeps := 2 ^ (retry + 1) :: (uploadLoop rest none true (retry + 1) 10).sleeps
          remaining := (uploadLoop rest none true (retry + 1) 10).remaining }) ∧
    (∀ (s : Nat) (rest : List ChunkOutcome) (err : Bool) (retry : Nat), retry < 10 →
      400 ≤ s → s < 500 →
      uploadLoop (ChunkOutcome.httpError s :: rest) none err retry 10 =
        { result := none, sleeps := [], remaining := rest }) ∧
    (∀ rest : List ChunkOutcome,
      resumable_upload (List.replicate 10 (ChunkOutcome.httpError 503) ++ rest) 10 =
        { result := none, sleeps := [2, 4, 8, 16, 32, 64, 128, 256, 512, 1024],
          remaining := rest }) := by
  refine ⟨?_, ?_, ?_⟩
  · intro s rest err retry hlt hs
    apply uploadLoop_transient_step s rest err retry 10 hlt
    rcases hs with h | h | h | h <;> simp [isTransient, h]
  · intro s rest err retry hlt h4a h4b
    apply uploadLoop_client_error s rest err retry 10 hlt
    simp only [isTransient, Bool.or_eq_false_iff, decide_eq_false_iff_not]
    omega
  · intro rest
    have h := uploadLoop_all_transient 10 0 rest false rfl
    have hs : (List.range 10).map (fun i => 2 ^ (0 + 1 + i)) =
        [2, 4, 8, 16, 32, 64, 128, 256, 512, 1024] := by decide
    rw [hs] at h
    exact h

/-- C6 witness: one transient retry step and one client-error stop on concrete
inputs. -/
theorem C6_backoff_policy_witness :
    uploadLoop [ChunkOutcome.httpError 503] none false 0 10 =
      { result := (uploadLoop [] none true 1 10).result
        sleeps := 2 ^ 1 :: (uploadLoop [] none true 1 10).sleeps
        remaining := (uploadLoop [] none true 1 10).remaining } ∧
    uploadLoop [ChunkOutcome.httpError 404] none false 0 10 =
      { result := none, sleeps := [], remaining := [] } :=
  ⟨C6_backoff_policy.1 503 [] false 0 (by decide) (Or.inr (Or.inr (Or.inl rfl))),
   C6_backoff_policy.2.1 404 [] false 0 (by decide) (by decide) (by decide)⟩

/-- C7: persistence round-trips — loading a saved record list yields the same
list, saving the reloaded list reproduces the same document, and the document
stores the records as a JSON array under the `videos` key. -/
theorem C7_persistence_round_trip (l : List ScheduledUpload) :
    load_schedule (some (save_schedule l)) = l ∧
    save_schedule (load_schedule (some (save_schedule l))) = save_schedule l ∧
    save_schedule l = Json.obj [("videos", Json.arr (l.map encodeEntry))] := by
  refine ⟨load_save l, ?_, rfl⟩
  rw [load_save l]

/-- C8: a successful import of N files starting at a non-past time T creates N
pending entries; with a fixed `interval_hours = k` their scheduled times are
T, T + 60k, T + 120k, ... minutes, and with `randomized_hourly` every gap
between consecutive entries lies in [60, 70] minutes. -/
theorem C8_import_spacing (st : SchedulerState) (files : List FileEntry)
    (ids : List String) (rands : List Nat) (a p : String) (k T now : Int)
    (hmeta : ∀ f ∈ files, f.meta.isSome) (hT : ¬ T < now)
    (hr : ∀ x ∈ rands, 60 ≤ x ∧ x ≤ 70) :
    ((impCreated files ids rands a k (some T) false p now).map (fun e => e.scheduled_time) =
      (List.range files.length).map (fun i : Nat => T + (k * 60) * (i : Int))) ∧
    ((impCreated files ids rands a k (some T) false p now).length = files.length) ∧
    (¬files.isEmpty = true →
      (import_folder st files ids rands a k (some T) false p now).2 = files.length) ∧
    (∀ e ∈ impCreated files ids rands a k (some T) false p now,
      e.uploaded = false ∧ e.cancelled = false) ∧
    (∀ e ∈ impCreated files ids rands a k (some T) true p now,
      e.uploaded = false ∧ e.cancelled = false) ∧
    List.Chain' (fun t1 t2 => 60 ≤ t2 - t1 ∧ t2 - t1 ≤ 70)
      ((impCreated files ids rands a k (some T) true p now).map
        (fun e => e.scheduled_time)) := by
  have hstart : effectiveStartTime (some T) now = T := by
    simp [effectiveStartTime, hT]
  have himp : ∀ r : Bool, impCreated files ids rands a k (some T) r p now =
      importLoop files ids rands T (k * 60) r a p := by
    intro r
    simp [impCreated, hstart]
  refine ⟨?_, ?_, ?_, ?_, ?_, ?_⟩
  · rw [himp false]
    exact importLoop_fixed_times files ids rands T (k * 60) a p hmeta
  · rw [himp false]
    exact importLoop_length files ids rands T (k * 60) false a p hmeta
  · intro hne
    simp only [import_folder, hne, if_false]
    rw [himp false]
    exact importLoop_length files ids rands T (k * 60) false a p hmeta
  · rw [himp false]
    exact importLoop_flags files ids rands T (k * 60) false a p
  · rw [himp true]
    exact importLoop_flags files ids rands T (k * 60) true a p
  · rw [himp true]
    exact importLoop_rand_chain files ids rands T (k * 60) a p hmeta hr

/-- Three demonstration files whose metadata generation succeeds. -/
def demoFiles : List FileEntry :=
  [{ path := "/videos/a.mp4", meta := some { title := "A", description := "", hashtags := [] } },
   { path := "/videos/b.mp4", meta := some { title := "B", description := "", hashtags := [] } },
   { path := "/videos/c.mp4", meta := some { title := "C", description := "", hashtags := [] } }]

/-- C8 witness: three files with a 2-hour interval from T = 0 are scheduled at
minutes 0, 120, 240. -/
theorem C8_import_spacing_witness :
    (impCreated demoFiles ["i1", "i2", "i3"] [] "acct" 2 (some 0) false "unlisted" 0).map
        (fun e => e.scheduled_time) =
      (List.range demoFiles.length).map (fun i : Nat => 0 + (2 * 60) * (i : Int)) :=
  (C8_import_spacing initState demoFiles ["i1", "i2", "i3"] [] "acct" "unlisted" 2 0 0
    (by decide) (by decide) (by decide)).1

/-- C9: an unspecified start time, or one lying in the past, is clamped to
now + 5 minutes, and the first entry created by the import is scheduled at
exactly that clamped time. -/
theorem C9_past_start_clamped (startTime : Option Int) (now : Int)
    (h : startTime = none ∨ ∃ t, startTime = some t ∧ t < now) :
    effectiveStartTime startTime now = now + 5 ∧
    (∀ (files : List FileEntry) (ids : List String) (rands : List Nat) (a : String)
      (k : Int) (r : Bool) (p : String) (e : ScheduledUpload),
      (impCreated files ids rands a k startTime r p now).head? = some e →
      e.scheduled_time = now + 5) := by
  have hE : effectiveStartTime startTime now = now + 5 := by
    rcases h with h | ⟨t, ht, htlt⟩
    · simp [effectiveStartTime, h]
    · simp [effectiveStartTime, ht, htlt]
  refine ⟨hE, ?_⟩
  intro files ids rands a k r p e he
  simp only [impCreated] at he
  rw [hE] at he
  exact importLoop_head_time files ids rands (now + 5) (k * 60) r a p e he

/-- C9 witness: the clamp instantiated at an unspecified start time. -/
theorem C9_past_start_clamped_witness : effectiveStartTime none 0 = 0 + 5 :=
  (C9_past_start_clamped none 0 (Or.inl rfl)).1

/-- C10: with an unknown id, cancel and metadata-update return false and leave
the state (record list and schedule file) untouched; with a matching id only
the first matching entry changes — cancel flips only `cancelled`, update
changes only the title/description/tags whose argument is present — and the
schedule is saved once. -/
theorem C10_frame_conditions (st : SchedulerState) (vid : String) (t d : Option String)
    (tg : Option (List String)) :
    ((∀ v ∈ st.scheduled_videos, v.id ≠ vid) →
      cancel_scheduled_video st vid = (st, false) ∧
      update_video_metadata st vid t d tg = (st, false)) ∧
    (∀ pre w post, st.scheduled_videos = pre ++ w :: post → (∀ u ∈ pre, u.id ≠ vid) →
      w.id = vid →
      cancel_scheduled_video st vid =
        ({ st with
           scheduled_videos := pre ++ { w with cancelled := true } :: post
           fileWrites := st.fileWrites + 1 }, true) ∧
      update_video_metadata st vid t d tg =
        ({ st with
           scheduled_videos := pre ++ { w with
             title := t.getD w.title
             description := d.getD w.description
             tags := tg.getD w.tags } :: post
           fileWrites := st.fileWrites + 1 }, true)) := by
  constructor
  · intro hno
    constructor
    · simp [cancel_scheduled_video, cancelFirst_no_match st.scheduled_videos vid hno]
    · simp [update_video_metadata, updateFirst_no_match st.scheduled_videos vid t d tg hno]
  · intro pre w post hsp hpre hw
    constructor
    · have := cancelFirst_app pre w post vid hw hpre
      rw [← hsp] at this
      simp [cancel_scheduled_video, this]
    · have := updateFirst_app pre w post vid t d tg hw hpre
      rw [← hsp] at this
      simp [update_video_metadata, this]

/-- C10 witness: both calls on an id that is not stored return false and leave
the concrete state unchanged. -/
theorem C10_frame_conditions_witness :
    cancel_scheduled_video st1 "nope" = (st1, false) ∧
    update_video_metadata st1 "nope" (some "nt") none none = (st1, false) :=
  (C10_frame_conditions st1 "nope" (some "nt") none none).1 (by decide)

end YSU
